import Mathlib

/-
Verification of the core protocol client in cdpctl (src/cdpctl/core.py):
message-id correlation of concurrent requests (CdpClient.send and the
reader loop), event fan-out to bounded subscription queues, and the two
wait helpers wait_ready_state and wait_network_idle.

The embedding mirrors the Python source directly.  JSON values decoded by
json.loads are modelled by the inductive type Json; Python truthiness and
dict operations are modelled by truthy, get and getD.  Inbound frames on
the wire are JSON objects; a TEXT message whose payload fails to decode is
modelled by WsMsg.badText (json.loads raising, which the reader catches in
its except-Exception branch).
-/

namespace Cdpctl

/-- JSON values as produced by json.loads (numbers restricted to the
integers the protocol uses). -/
inductive Json where
  | null
  | bool (b : Bool)
  | num (n : Int)
  | str (s : String)
  | arr (elems : List Json)
  | obj (fields : List (String × Json))


namespace Json

/-- Dictionary lookup d.get(k): the value at key k of an object, none when
the key is absent (objects decoded by json.loads have unique keys, so the
first binding is the binding). -/
def get : Json → String → Option Json
  | obj fields, k => (fields.find? (fun p => p.1 == k)).map Prod.snd
  | _, _ => none

/-- Dictionary lookup with a default, d.get(k, dflt). -/
def getD (j : Json) (k : String) (dflt : Json) : Json :=
  (j.get k).getD dflt

/-- Membership test, k in d, for an object. -/
def hasKey (j : Json) (k : String) : Bool :=
  (j.get k).isSome

/-- Python truthiness of a decoded JSON value: None, False, 0, the empty
string, the empty array and the empty object are falsy. -/
def truthy : Json → Bool
  | null => false
  | bool b => b
  | num n => n != 0
  | str s => s != ""
  | arr xs => !xs.isEmpty
  | obj fs => !fs.isEmpty

/-- The int(v) conversion applied to the id field: defined on numbers,
booleans and integer strings; none models int() raising, which the reader
loop turns into its except-Exception teardown. -/
def toInt : Json → Option Int
  | num n => some n
  | bool b => some (if b then 1 else 0)
  | str s => s.toInt?
  | _ => none

/-- Whether the value is a JSON object (isinstance(v, dict)). -/
def isObj : Json → Bool
  | obj _ => true
  | _ => false

end Json

/-- Outcome written into a pending asyncio future by the reader loop:
either fut.set_result(data) with the whole response frame, or
fut.set_exception(RuntimeError(msg)). -/
inductive FutVal where
  | result (data : Json)
  | exn (msg : String)


/-- One bounded event queue created by CdpClient.subscribe:
asyncio.Queue(maxsize) holding its current items in FIFO order. -/
structure EventQueue where
  maxsize : Nat
  items : List Json


/-- asyncio.Queue.full(): true when maxsize is positive and the queue
holds at least maxsize items (a queue with maxsize 0 is never full). -/
def EventQueue.full (q : EventQueue) : Bool :=
  0 < q.maxsize && q.maxsize ≤ q.items.length

/-- State of one CdpClient: the id counter self._id, the pending map
self._pending (RequestId paired with fut.done() for each registered
future), the subscription list self._event_subs, and a log of the
resolutions the reader loop has delivered to callers (each fut.set_result
or fut.set_exception call, by RequestId). -/
structure ClientState where
  nextId : Int
  pending : List (Int × Bool)
  subs : List EventQueue
  resolved : List (Int × FutVal)


/-- self._pending.pop(i, None), lookup part: the stored future (its done
flag) when id i is registered. -/
def lookupPending (pending : List (Int × Bool)) (i : Int) : Option Bool :=
  (pending.find? (fun p => p.1 == i)).map Prod.snd

/-- self._pending.pop(i, None), removal part: the map without id i. -/
def removePending (pending : List (Int × Bool)) (i : Int) : List (Int × Bool) :=
  pending.filter (fun p => p.1 != i)

/-- The event branch of the reader loop: offer the frame to every
registered subscription, appending it when the queue is not full and
dropping it for that queue otherwise. -/
def broadcast (subs : List EventQueue) (data : Json) : List EventQueue :=
  subs.map (fun q => if q.full then q else { q with items := q.items ++ [data] })

/-- Exceptions the body of the reader loop can raise while handling one
decoded frame; any of them lands in the except-Exception teardown. -/
inductive ReaderExn where
  | nonObjectFrame
  | badId


/-- The message RuntimeError("WebSocket reader error") set on every
pending future by the reader teardown. -/
def readerErrMsg : String := "WebSocket reader error"

/-- The except-Exception branch of CdpClient.reader: set the transport
error on every pending future that is not yet done (the pending dict
itself is not cleared; every future in it becomes done). -/
def failPending (st : ClientState) : ClientState :=
  { st with
    pending := st.pending.map (fun p => (p.1, true)),
    resolved := st.resolved ++
      (st.pending.filter (fun p => !p.2)).map (fun p => (p.1, FutVal.exn readerErrMsg)) }

/-- The body of CdpClient.reader for one decoded TEXT frame.  If the
frame has an id key whose value is truthy, it is handled as a response:
int(data[id]) is taken (raising models as ReaderExn.badId), the matching
pending future (if any) is popped, and if it is not done it is resolved
with the whole frame.  Otherwise the frame is broadcast to the
subscriptions.  Frames that are not JSON objects make the dict operations
raise, modelled by ReaderExn.nonObjectFrame. -/
def processFrame (st : ClientState) (data : Json) : Except ReaderExn ClientState :=
  if data.isObj then
    match data.get "id" with
    | some v =>
      if v.truthy then
        match v.toInt with
        | none => .error .badId
        | some i =>
          match lookupPending st.pending i with
          | some done =>
            let st1 := { st with pending := removePending st.pending i }
            if done then .ok st1
            else .ok { st1 with resolved := st1.resolved ++ [(i, FutVal.result data)] }
          | none => .ok st
      else .ok { st with subs := broadcast st.subs data }
    | none => .ok { st with subs := broadcast st.subs data }
  else .error .nonObjectFrame

/-- One message delivered by the websocket iterator to the reader loop. -/
inductive WsMsg where
  | text (data : Json)
  | badText
  | wsError
  | other


/-- How the websocket iteration itself ends when the message list is
exhausted: the stream closing normally, the reader task being cancelled
by CdpClient.close, or the receive raising an exception. -/
inductive StreamEnd where
  | closed
  | cancelled
  | recvError


/-- CdpClient.reader: fold the loop body over the incoming messages.
A TEXT frame is decoded and processed; a loop-body exception (decode
failure, a malformed id, a non-object frame) runs the except-Exception
teardown failPending and ends the loop.  A WSMsgType.ERROR message breaks
out of the loop without any teardown.  When the stream ends, only a
receive exception runs the teardown; a normal close and a cancellation
(the except-CancelledError branch) leave the pending futures untouched. -/
def runReader (st : ClientState) : List WsMsg → StreamEnd → ClientState
  | [], e =>
    match e with
    | .recvError => failPending st
    | .closed => st
    | .cancelled => st
  | m :: rest, e =>
    match m with
    | .text data =>
      match processFrame st data with
      | .ok st1 => runReader st1 rest e
      | .error _ => failPending st
    | .badText => failPending st
    | .wsError => st
    | .other => runReader st rest e

/-- The RequestId a frame is correlated under: present exactly when the
frame carries an id member that is truthy and convertible by int(). -/
def frameId (data : Json) : Option Int :=
  match data.get "id" with
  | some v => if v.truthy then v.toInt else none
  | none => none

/-- CdpClient.send, registration half: allocate the next id
(self._id += 1), build the outgoing payload (params only included when
truthy), and register a fresh, not-done future under the new id. -/
def sendRegister (st : ClientState) (method : String) (params : Option Json) :
    ClientState × Int × Json :=
  let msgId := st.nextId + 1
  let payload := Json.obj
    ([("id", Json.num msgId), ("method", Json.str method)] ++
      (match params with
       | some p => if p.truthy then [("params", p)] else []
       | none => []))
  ({ st with nextId := msgId, pending := st.pending ++ [(msgId, false)] }, msgId, payload)

/-- Failure of CdpClient.send once its response frame has arrived: the
RuntimeError built from a truthy error object (carrying err.get of code
and of message, None when absent), or the AttributeError that err.get
raises when the error member is truthy but not a dict. -/
inductive SendErr where
  | protocolError (code : Option Json) (message : Option Json)
  | attributeError

/-- CdpClient.send, completion half, applied to the response frame the
reader loop resolved the future with: when the frame has a truthy error
member, raise the protocol error built from its code and message (err.get
on a non-dict raising AttributeError); otherwise return the result member,
defaulting to the empty object. -/
def sendComplete (resp : Json) : Except SendErr Json :=
  match resp.get "error" with
  | some e =>
    if e.truthy then
      match e with
      | Json.obj fs => .error (.protocolError ((Json.obj fs).get "code") ((Json.obj fs).get "message"))
      | _ => .error .attributeError
    else .ok (resp.getD "result" (Json.obj []))
  | none => .ok (resp.getD "result" (Json.obj []))

/-- Python equality of a decoded JSON value against a string literal. -/
def Json.eqStr : Json → String → Bool
  | .str s, t => s == t
  | _, _ => false

/-- The value inspected by one iteration of the wait_ready_state poll:
r.get of result (defaulting to the empty dict) and then .get of value
(defaulting to the empty string); .get on a non-dict raises
AttributeError, modelled by the error case. -/
def readyStateValue (r : Json) : Except Unit Json :=
  match r with
  | .obj _ =>
    match r.getD "result" (Json.obj []) with
    | .obj fs => .ok ((Json.obj fs).getD "value" (Json.str ""))
    | _ => .error ()
  | _ => .error ()

/-- The accepted-set test of wait_ready_state: for want dom, the state is
interactive or complete; for want load, the state is complete. -/
def readyAccepts (want : String) (state : Json) : Bool :=
  (want == "dom" && (state.eqStr "interactive" || state.eqStr "complete"))
  || (want == "load" && state.eqStr "complete")

/-- The fixed sleep, in milliseconds, between two non-matching polls of
wait_ready_state (asyncio.sleep(0.1)). -/
def pollSleepMs : Nat := 100

/-- Outcome of wait_ready_state: success recording how many non-matching
polls preceded the matching one, a TimeoutError raised by
asyncio.wait_for, or an exception escaping the poll body. -/
inductive PollOutcome where
  | success (polls : Nat)
  | timeout
  | raised

/-- The wait_ready_state poll loop over the sequence of send results it
receives before the deadline; exhausting the sequence models the deadline
elapsing, with asyncio.wait_for cancelling poll() and raising
TimeoutError. -/
def waitReadyState (want : String) : List Json → PollOutcome
  | [] => .timeout
  | r :: rest =>
    match readyStateValue r with
    | .error _ => .raised
    | .ok state =>
      if readyAccepts want state then .success 0
      else
        match waitReadyState want rest with
        | .success k => .success (k + 1)
        | .timeout => .timeout
        | .raised => .raised

/-- Mutable state of the wait_network_idle loop: the in-flight counter and
the rolling quiet deadline.  Time is loop.time() in milliseconds, so the
quiet period of quiet_ms / 1000.0 seconds is quietMs milliseconds. -/
structure IdleState where
  inflight : Int
  quietDeadline : Int

/-- Initial state of wait_network_idle at entry time t0: counter zero and
quiet deadline t0 + quietMs (the overall deadline is t0 + the timeout). -/
def idleInit (t0 quietMs : Int) : IdleState :=
  { inflight := 0, quietDeadline := t0 + quietMs }

/-- What one bounded q.get delivered to an iteration of wait_network_idle:
either the asyncio.wait_for timed out, or an event arrived and loop.time()
read tEvt when the handler updated the quiet deadline. -/
inductive IdleEvent where
  | qTimeout
  | item (evt : Json) (tEvt : Int)

/-- Outcome of one iteration of the wait_network_idle loop: TimeoutError
raised, success returned, or the loop continuing with an updated state. -/
inductive IdleOutcome where
  | timedOut
  | success
  | running (st : IdleState)

/-- The event-handling tail of one wait_network_idle iteration: a q.get
timeout and a non-dict event leave the state unchanged (continue); for a
dict event, evt.get of method (defaulting to the empty string) is
compared against the three Network methods: requestWillBeSent increments
the in-flight counter, loadingFinished and loadingFailed decrement it
saturating at zero, and all three push the quiet deadline to the current
loop.time() tEvt plus the quiet period. -/
def idleHandle (quietMs : Int) (st : IdleState) (ev : IdleEvent) : IdleState :=
  match ev with
  | .qTimeout => st
  | .item evt tEvt =>
    if evt.isObj then
      let m := evt.getD "method" (Json.str "")
      if m.eqStr "Network.requestWillBeSent" then
        { inflight := st.inflight + 1, quietDeadline := tEvt + quietMs }
      else if m.eqStr "Network.loadingFinished" || m.eqStr "Network.loadingFailed" then
        { inflight := max 0 (st.inflight - 1), quietDeadline := tEvt + quietMs }
      else st
    else st

/-- One iteration of the wait_network_idle while-loop, at top-of-loop time
tNow: raise TimeoutError when the overall deadline is reached, return when
the counter is at most zero and the quiet deadline has passed, and
otherwise keep looping with the state idleHandle produces from what q.get
delivered. -/
def idleStep (quietMs deadline : Int) (st : IdleState) (tNow : Int) (ev : IdleEvent) :
    IdleOutcome :=
  if deadline ≤ tNow then .timedOut
  else if st.inflight ≤ 0 ∧ st.quietDeadline ≤ tNow then .success
  else .running (idleHandle quietMs st ev)

/-- The wait_network_idle loop over a trace of iterations, each entry
giving the loop.time() at the top of the iteration and what the q.get
wait delivered: some true models returning (idle reached), some false the
TimeoutError, none a trace that ends with the loop still running. -/
def idleRun (quietMs deadline : Int) (st : IdleState) : List (Int × IdleEvent) → Option Bool
  | [] => none
  | (t, ev) :: rest =>
    match idleStep quietMs deadline st t ev with
    | .timedOut => some false
    | .success => some true
    | .running st1 => idleRun quietMs deadline st1 rest

/-- The states the wait_network_idle loop passes through along a trace,
starting state included. -/
def idleStates (quietMs deadline : Int) (st : IdleState) : List (Int × IdleEvent) → List IdleState
  | [] => [st]
  | (t, ev) :: rest =>
    match idleStep quietMs deadline st t ev with
    | .running st1 => st :: idleStates quietMs deadline st1 rest
    | _ => [st]

/-! Helper lemmas about the pending map. -/

theorem lookupPending_mem {p : List (Int × Bool)} {i : Int} {b : Bool}
    (h : lookupPending p i = some b) : (i, b) ∈ p := by
  unfold lookupPending at h
  rcases Option.map_eq_some'.mp h with ⟨x, hfind, hsnd⟩
  have hmem := List.mem_of_find?_eq_some hfind
  have hpred := List.find?_some hfind
  have h1 : x.1 = i := by simpa using hpred
  have : x = (i, b) := by
    cases x
    simp only at h1 hsnd
    simp [h1, hsnd]
  rwa [this] at hmem

theorem mem_lookupPending {p : List (Int × Bool)} {i : Int} {b : Bool}
    (hnd : (p.map Prod.fst).Nodup) (h : (i, b) ∈ p) :
    lookupPending p i = some b := by
  induction p with
  | nil => simp at h
  | cons a rest ih =>
    simp only [List.map_cons, List.nodup_cons] at hnd
    rcases List.mem_cons.mp h with h | h
    · unfold lookupPending
      rw [← h]
      simp [List.find?_cons_of_pos]
    · have hne : a.1 ≠ i := by
        intro he
        exact hnd.1 (he ▸ (List.mem_map.mpr ⟨(i, b), h, rfl⟩))
      unfold lookupPending at ih ⊢
      rw [List.find?_cons_of_neg]
      · exact ih hnd.2 h
      · simpa using hne

theorem mem_removePending {p : List (Int × Bool)} {i : Int} {x : Int × Bool} :
    x ∈ removePending p i ↔ x ∈ p ∧ x.1 ≠ i := by
  unfold removePending
  simp [List.mem_filter]

theorem nodup_removePending {p : List (Int × Bool)} {i : Int}
    (hnd : (p.map Prod.fst).Nodup) :
    ((removePending p i).map Prod.fst).Nodup := by
  unfold removePending
  exact List.Nodup.sublist ((List.filter_sublist _).map Prod.fst) hnd

theorem lookupPending_removePending (p : List (Int × Bool)) (i : Int) :
    lookupPending (removePending p i) i = none := by
  unfold lookupPending
  rw [Option.map_eq_none', List.find?_eq_none]
  intro x hx
  have := (mem_removePending.mp hx).2
  simpa using this

/-- Unfolding of the reader body on a response frame: an object frame
whose id member is truthy and converts to i pops the pending future under
i when present, resolving it with the whole frame when it is not done,
and leaves the state unchanged when id i is not pending. -/
theorem processFrame_response (st : ClientState) (d : Json) (i : Int)
    (hobj : d.isObj = true) (hid : frameId d = some i) :
    processFrame st d =
      match lookupPending st.pending i with
      | some false =>
        .ok ⟨st.nextId, removePending st.pending i, st.subs,
          st.resolved ++ [(i, FutVal.result d)]⟩
      | some true => .ok ⟨st.nextId, removePending st.pending i, st.subs, st.resolved⟩
      | none => .ok st := by
  unfold frameId at hid
  unfold processFrame
  rw [hobj]
  simp only [if_true]
  cases hv : d.get "id" with
  | none => rw [hv] at hid; exact absurd hid (by simp)
  | some v =>
    rw [hv] at hid
    change (if v.truthy = true then v.toInt else none) = some i at hid
    by_cases ht : v.truthy = true
    · rw [if_pos ht] at hid
      simp only [ht, if_true, hid]
      cases hl : lookupPending st.pending i with
      | none => simp
      | some b => cases b <;> simp
    · rw [if_neg ht] at hid
      exact absurd hid (by simp)

/-- Unfolding of the reader body on an event frame: an object frame whose
id member is absent or falsy is offered to every subscription and touches
nothing else. -/
theorem processFrame_event (st : ClientState) (d : Json)
    (hobj : d.isObj = true)
    (hid : ∀ v, d.get "id" = some v → v.truthy = false) :
    processFrame st d = .ok { st with subs := broadcast st.subs d } := by
  unfold processFrame
  rw [hobj]
  simp only [if_true]
  cases hv : d.get "id" with
  | none => simp
  | some v => simp [hid v hv]

/-- C9: a matched response frame that carries neither an error member nor
a result member makes CdpClient.send succeed with the empty object rather
than fail or return a null or absent value. -/
theorem send_empty_result_default (resp : Json)
    (herr : resp.get "error" = none) (hres : resp.get "result" = none) :
    sendComplete resp = .ok (Json.obj []) := by
  unfold sendComplete
  rw [herr]
  unfold Json.getD
  rw [hres]
  rfl

/-- Witness for C9 at the concrete frame carrying only an id. -/
theorem send_empty_result_default_witness :
    sendComplete (Json.obj [("id", Json.num 1)]) = .ok (Json.obj []) :=
  send_empty_result_default (Json.obj [("id", Json.num 1)]) rfl rfl

/-- C10: a frame carrying a truthy id that matches no pending request is
silently discarded by the reader with no error and no state change, so it
is not broadcast and leaves the pending map and every queue unchanged;
and a response that resolves id i also removes i from the pending map, so
the same frame arriving again is discarded and each future is resolved at
most once. -/
theorem unknown_id_frame_discarded (st : ClientState) (data : Json) (i : Int)
    (hobj : data.isObj = true) (hid : frameId data = some i) :
    (lookupPending st.pending i = none → processFrame st data = .ok st) ∧
    (∀ b, lookupPending st.pending i = some b →
      ∃ st1, processFrame st data = .ok st1 ∧
        lookupPending st1.pending i = none ∧ processFrame st1 data = .ok st1) := by
  constructor
  · intro hl
    rw [processFrame_response st data i hobj hid, hl]
  · intro b hl
    cases b
    · refine ⟨⟨st.nextId, removePending st.pending i, st.subs,
        st.resolved ++ [(i, FutVal.result data)]⟩, ?_, ?_, ?_⟩
      · rw [processFrame_response st data i hobj hid, hl]
      · exact lookupPending_removePending st.pending i
      · rw [processFrame_response _ data i hobj hid]
        simp only [lookupPending_removePending st.pending i]
    · refine ⟨⟨st.nextId, removePending st.pending i, st.subs, st.resolved⟩, ?_, ?_, ?_⟩
      · rw [processFrame_response st data i hobj hid, hl]
      · exact lookupPending_removePending st.pending i
      · rw [processFrame_response _ data i hobj hid]
        simp only [lookupPending_removePending st.pending i]

/-- Witness for C10 at a concrete unmatched frame and a concrete matched
one. -/
theorem unknown_id_frame_discarded_witness :
    processFrame ⟨0, [], [], []⟩ (Json.obj [("id", Json.num 7)]) = .ok ⟨0, [], [], []⟩ :=
  (unknown_id_frame_discarded ⟨0, [], [], []⟩ (Json.obj [("id", Json.num 7)]) 7 rfl rfl).1 rfl

/-- C4 counterexample: a matched response frame whose error member is the
non-empty string boom makes send fail with the AttributeError raised by
err.get, not with a ProtocolError exposing a code and a message. -/
theorem nonobject_error_member_cex :
    sendComplete (Json.obj [("id", Json.num 1), ("error", Json.str "boom")]) =
      .error .attributeError := rfl

/-- C4 amended: when the matched response frame carries a truthy error
member that is an object, send fails with the protocol error carrying that
object's code and message members; a truthy non-object error member makes
send fail with an AttributeError instead; in every other case send returns
the result member of the frame, defaulting to the empty object. -/
theorem send_error_result_handling (resp : Json) :
    (∀ fs, resp.get "error" = some (Json.obj fs) → (Json.obj fs).truthy = true →
      sendComplete resp = .error (.protocolError ((Json.obj fs).get "code")
        ((Json.obj fs).get "message"))) ∧
    (∀ e, resp.get "error" = some e → e.truthy = true → e.isObj = false →
      sendComplete resp = .error .attributeError) ∧
    ((∀ e, resp.get "error" = some e → e.truthy = false) →
      sendComplete resp = .ok (resp.getD "result" (Json.obj []))) := by
  refine ⟨?_, ?_, ?_⟩
  · intro fs he ht
    unfold sendComplete
    rw [he]
    simp [ht]
  · intro e he ht hno
    unfold sendComplete
    rw [he]
    cases e <;> simp_all [Json.isObj]
  · intro hf
    unfold sendComplete
    cases he : resp.get "error" with
    | none => rfl
    | some e => simp [hf e he]

/-- Witness for C4 at a concrete protocol-error frame and a concrete
success frame. -/
theorem send_error_result_handling_witness :
    sendComplete (Json.obj [("id", Json.num 1),
        ("error", Json.obj [("code", Json.num (-32000)), ("message", Json.str "oops")])]) =
      .error (.protocolError (some (Json.num (-32000))) (some (Json.str "oops"))) ∧
    sendComplete (Json.obj [("id", Json.num 1), ("result", Json.num 5)]) =
      .ok (Json.num 5) := by
  constructor
  · exact (send_error_result_handling _).1
      [("code", Json.num (-32000)), ("message", Json.str "oops")] rfl rfl
  · exact (send_error_result_handling _).2.2 (by intro e he; cases he)

/-- C5: the reader loop processing an event frame offers it to every
registered subscription and touches nothing else; queue by queue, a
subscription that is not full receives the envelope appended at the tail
and a full subscription drops it, with no effect on any other
subscription. -/
theorem event_broadcast_per_queue (st : ClientState) (data : Json)
    (hobj : data.isObj = true)
    (hid : ∀ v, data.get "id" = some v → v.truthy = false) :
    processFrame st data = .ok { st with subs := broadcast st.subs data } ∧
    ∀ k : Nat, (broadcast st.subs data)[k]? =
      (st.subs[k]?).map (fun q =>
        if q.full then q else { q with items := q.items ++ [data] }) := by
  constructor
  · exact processFrame_event st data hobj hid
  · intro k
    unfold broadcast
    exact List.getElem?_map _ _ _

/-- Witness for C5: one full queue of capacity 1 drops the envelope while
the empty queue beside it still receives it. -/
theorem event_broadcast_per_queue_witness :
    processFrame ⟨0, [], [⟨1, [Json.null]⟩, ⟨1, []⟩], []⟩
        (Json.obj [("method", Json.str "Page.loadEventFired")]) =
      .ok ⟨0, [], [⟨1, [Json.null]⟩,
        ⟨1, [Json.obj [("method", Json.str "Page.loadEventFired")]]⟩], []⟩ := by
  have h := (event_broadcast_per_queue ⟨0, [], [⟨1, [Json.null]⟩, ⟨1, []⟩], []⟩
    (Json.obj [("method", Json.str "Page.loadEventFired")]) rfl
    (by intro v hv; cases hv)).1
  rw [h]
  rfl

/-- C2 counterexample: with request 1 outstanding and not done, a reader
loop that ends on a WSMsgType.ERROR transport message, one whose task is
cancelled by close, and one whose stream simply closes, all leave the
request unresolved: the resolution log stays empty and the future stays
registered and not done, contradicting that closing or a transport error
resolves every outstanding request. -/
theorem close_leaves_pending_unresolved_cex :
    (runReader ⟨1, [(1, false)], [], []⟩ [WsMsg.wsError] .closed).resolved = [] ∧
    (runReader ⟨1, [(1, false)], [], []⟩ [WsMsg.wsError] .closed).pending = [(1, false)] ∧
    (runReader ⟨1, [(1, false)], [], []⟩ [] .cancelled).resolved = [] ∧
    (runReader ⟨1, [(1, false)], [], []⟩ [] .closed).resolved = [] :=
  ⟨rfl, rfl, rfl, rfl⟩

/-- C2 amended: outstanding requests are resolved with the transport error
exactly on the teardown paths that raise inside the reader loop: a decode
failure on a TEXT message or an exception ending the receive run
failPending, which resolves every not-done pending future with the
RuntimeError; whereas a WSMsgType.ERROR message, a normal stream end and
the cancellation performed by close leave every pending future
unresolved. -/
theorem reader_teardown_only_on_exception (st : ClientState) :
    (∀ rest e, runReader st (WsMsg.badText :: rest) e = failPending st) ∧
    (runReader st [] .recvError = failPending st) ∧
    (∀ i, (i, false) ∈ st.pending →
      (i, FutVal.exn readerErrMsg) ∈ (failPending st).resolved) ∧
    (∀ rest e, runReader st (WsMsg.wsError :: rest) e = st) ∧
    (runReader st [] .closed = st) ∧
    (runReader st [] .cancelled = st) := by
  refine ⟨fun rest e => rfl, rfl, ?_, fun rest e => rfl, rfl, rfl⟩
  intro i hi
  unfold failPending
  simp only [List.mem_append]
  right
  exact List.mem_map.mpr ⟨(i, false), List.mem_filter.mpr ⟨hi, rfl⟩, rfl⟩

/-- Witness for C2 amended: a decode failure with request 1 outstanding
resolves it with the transport error. -/
theorem reader_teardown_only_on_exception_witness :
    runReader ⟨1, [(1, false)], [], []⟩ [WsMsg.badText] .closed =
      ⟨1, [(1, true)], [], [(1, FutVal.exn readerErrMsg)]⟩ ∧
    (1, FutVal.exn readerErrMsg) ∈ (failPending ⟨1, [(1, false)], [], []⟩).resolved := by
  constructor
  · rw [(reader_teardown_only_on_exception ⟨1, [(1, false)], [], []⟩).1 [] .closed]
    rfl
  · exact (reader_teardown_only_on_exception ⟨1, [(1, false)], [], []⟩).2.2.1 1
      (List.mem_singleton.mpr rfl)

/-- C3 counterexample: a frame carrying the unmatched non-zero id 7, with
one empty subscription registered and nothing pending, is silently
dropped by the reader: the state, in particular the subscription queue,
is unchanged, although handing the frame to the broadcaster would have
appended it to the non-full queue.  So a frame can be neither a matched
response nor an event offered to the subscriptions. -/
theorem unmatched_id_not_broadcast_cex :
    processFrame ⟨0, [], [⟨2048, []⟩], []⟩ (Json.obj [("id", Json.num 7)]) =
      .ok ⟨0, [], [⟨2048, []⟩], []⟩ ∧
    broadcast [⟨2048, []⟩] (Json.obj [("id", Json.num 7)]) =
      [⟨2048, [Json.obj [("id", Json.num 7)]]⟩] :=
  ⟨rfl, rfl⟩

/-- C3 amended: the reader treats an object frame as a potential response
exactly when its id member is present and truthy; such a frame pops and
resolves the matching not-done pending request when one exists and is
otherwise silently dropped; every object frame whose id member is absent
or falsy (for example id 0) is handed to the broadcaster.  The
discriminator is a truthy id member, not the mere absence of the field. -/
theorem reader_classification (st : ClientState) (fs : List (String × Json)) :
    ((∀ v, (Json.obj fs).get "id" = some v → v.truthy = false) →
      processFrame st (Json.obj fs) =
        .ok { st with subs := broadcast st.subs (Json.obj fs) }) ∧
    (∀ v i, (Json.obj fs).get "id" = some v → v.truthy = true → v.toInt = some i →
      (lookupPending st.pending i = some false →
        processFrame st (Json.obj fs) =
          .ok ⟨st.nextId, removePending st.pending i, st.subs,
            st.resolved ++ [(i, FutVal.result (Json.obj fs))]⟩) ∧
      (lookupPending st.pending i = none →
        processFrame st (Json.obj fs) = .ok st)) := by
  constructor
  · exact processFrame_event st (Json.obj fs) rfl
  · intro v i hv ht hi
    have hfid : frameId (Json.obj fs) = some i := by
      unfold frameId
      rw [hv]
      simp [ht, hi]
    constructor
    · intro hl
      rw [processFrame_response st (Json.obj fs) i rfl hfid, hl]
    · intro hl
      rw [processFrame_response st (Json.obj fs) i rfl hfid, hl]

/-- Witness for C3 amended: a frame with id 0 is broadcast as an event,
and a response with id 1 resolves the matching pending request. -/
theorem reader_classification_witness :
    processFrame ⟨1, [(1, false)], [⟨2048, []⟩], []⟩ (Json.obj [("id", Json.num 0)]) =
      .ok ⟨1, [(1, false)], [⟨2048, [Json.obj [("id", Json.num 0)]]⟩], []⟩ ∧
    processFrame ⟨1, [(1, false)], [], []⟩ (Json.obj [("id", Json.num 1)]) =
      .ok ⟨1, [], [], [(1, FutVal.result (Json.obj [("id", Json.num 1)]))]⟩ := by
  constructor
  · have h := (reader_classification ⟨1, [(1, false)], [⟨2048, []⟩], []⟩
      [("id", Json.num 0)]).1 (by intro v hv; cases hv; rfl)
    rw [h]
    rfl
  · have h := ((reader_classification ⟨1, [(1, false)], [], []⟩
      [("id", Json.num 1)]).2 (Json.num 1) 1 rfl rfl rfl).1 rfl
    rw [h]
    rfl

/-- C6: one iteration of wait_network_idle raises Timeout exactly when the
overall deadline has been reached, regardless of the counter and quiet
deadline, and returns success exactly when the deadline has not been
reached, the in-flight counter is at most zero and the quiet deadline has
passed; so when both deadlines have passed, the overall deadline wins and
an active quiet period never extends the wait past it. -/
theorem wait_network_idle_deadline_priority
    (quietMs deadline : Int) (st : IdleState) (tNow : Int) (ev : IdleEvent) :
    (idleStep quietMs deadline st tNow ev = .timedOut ↔ deadline ≤ tNow) ∧
    (idleStep quietMs deadline st tNow ev = .success ↔
      (tNow < deadline ∧ st.inflight ≤ 0 ∧ st.quietDeadline ≤ tNow)) := by
  unfold idleStep
  by_cases h1 : deadline ≤ tNow
  · rw [if_pos h1]
    constructor
    · exact ⟨fun _ => h1, fun _ => rfl⟩
    · constructor
      · intro hh; cases hh
      · intro hc; exact absurd h1 (not_le.mpr hc.1)
  · rw [if_neg h1]
    by_cases h2 : st.inflight ≤ 0 ∧ st.quietDeadline ≤ tNow
    · rw [if_pos h2]
      constructor
      · constructor
        · intro hh; cases hh
        · intro hd; exact absurd hd h1
      · exact ⟨fun _ => ⟨not_le.mp h1, h2.1, h2.2⟩, fun _ => rfl⟩
    · rw [if_neg h2]
      constructor
      · constructor
        · intro hh; cases hh
        · intro hd; exact absurd hd h1
      · constructor
        · intro hh; cases hh
        · intro hc; exact absurd ⟨hc.2.1, hc.2.2⟩ h2

/-- Witness for C6: with both deadlines passed and the counter zero, the
iteration times out rather than returning success. -/
theorem wait_network_idle_deadline_priority_witness :
    idleStep 500 1000 ⟨0, 900⟩ 1000 IdleEvent.qTimeout = .timedOut := by
  exact (wait_network_idle_deadline_priority 500 1000 ⟨0, 900⟩ 1000 .qTimeout).1.mpr le_rfl

/-- A decoded value equals a string literal under Python equality only
when it is exactly that string. -/
theorem eqStr_eq {m : Json} {s : String} (h : m.eqStr s = true) : m = Json.str s := by
  cases m <;> simp [Json.eqStr] at h
  rw [h]

/-- An iteration of wait_network_idle that keeps looping continues with
the state the event handler produced. -/
theorem idleStep_running {quietMs deadline : Int} {st : IdleState} {tNow : Int}
    {ev : IdleEvent} {st1 : IdleState}
    (h : idleStep quietMs deadline st tNow ev = .running st1) :
    st1 = idleHandle quietMs st ev := by
  unfold idleStep at h
  split_ifs at h
  rw [IdleOutcome.running.injEq] at h
  exact h.symm

/-- C7: the in-flight counter of wait_network_idle never goes below zero:
the event handler preserves nonnegativity, every state the loop passes
through from a nonnegative start has a nonnegative counter, and a
loadingFinished or loadingFailed event handled with the counter already
at zero leaves it at zero while still pushing the quiet deadline to the
event time plus the quiet period. -/
theorem inflight_counter_saturates (quietMs deadline : Int) :
    (∀ st ev, 0 ≤ st.inflight → 0 ≤ (idleHandle quietMs st ev).inflight) ∧
    (∀ st0 trace s, 0 ≤ st0.inflight →
      s ∈ idleStates quietMs deadline st0 trace → 0 ≤ s.inflight) ∧
    (∀ st evt tEvt, st.inflight = 0 →
      ((Json.getD evt "method" (Json.str "")).eqStr "Network.loadingFinished" = true ∨
       (Json.getD evt "method" (Json.str "")).eqStr "Network.loadingFailed" = true) →
      (idleHandle quietMs st (.item evt tEvt)).inflight = 0 ∧
      (idleHandle quietMs st (.item evt tEvt)).quietDeadline = tEvt + quietMs) := by
  have hpres : ∀ st ev, 0 ≤ st.inflight → 0 ≤ (idleHandle quietMs st ev).inflight := by
    intro st ev h0
    cases ev with
    | qTimeout => exact h0
    | item evt tEvt =>
      simp only [idleHandle]
      split_ifs
      · show 0 ≤ st.inflight + 1
        omega
      · exact le_max_left 0 _
      · exact h0
      · exact h0
  refine ⟨hpres, ?_, ?_⟩
  · intro st0 trace s h0 hs
    induction trace generalizing st0 with
    | nil =>
      rw [List.mem_singleton.mp hs]
      exact h0
    | cons p rest ih =>
      obtain ⟨t, ev⟩ := p
      unfold idleStates at hs
      cases hstep : idleStep quietMs deadline st0 t ev with
      | timedOut =>
        rw [hstep] at hs
        rw [List.mem_singleton.mp hs]
        exact h0
      | success =>
        rw [hstep] at hs
        rw [List.mem_singleton.mp hs]
        exact h0
      | running st1 =>
        rw [hstep] at hs
        rcases List.mem_cons.mp hs with h | h
        · rw [h]
          exact h0
        · have h1 : st1 = idleHandle quietMs st0 ev := idleStep_running hstep
          exact ih st1 (h1 ▸ hpres st0 ev h0) h
  · intro st evt tEvt hz hm
    have hm1 : Json.getD evt "method" (Json.str "") = Json.str "Network.loadingFinished" ∨
        Json.getD evt "method" (Json.str "") = Json.str "Network.loadingFailed" := by
      rcases hm with h | h
      · exact Or.inl (eqStr_eq h)
      · exact Or.inr (eqStr_eq h)
    have hobj : evt.isObj = true := by
      cases evt <;> first
        | rfl
        | (rcases hm1 with h | h <;> simp [Json.getD, Json.get] at h)
    have hval : idleHandle quietMs st (.item evt tEvt) =
        { inflight := 0 ⊔ (st.inflight - 1), quietDeadline := tEvt + quietMs } := by
      simp only [idleHandle, hobj, if_true]
      rcases hm1 with h | h <;> rw [h]
      · rfl
      · rfl
    rw [hval]
    refine ⟨?_, rfl⟩
    show 0 ⊔ (st.inflight - 1) = 0
    omega

/-- Witness for C7: a loadingFinished event with the counter at zero
keeps it at zero and moves the quiet deadline to the event time plus the
quiet period. -/
theorem inflight_counter_saturates_witness :
    (idleHandle 500 ⟨0, 500⟩
      (.item (Json.obj [("method", Json.str "Network.loadingFinished")]) 10)).inflight = 0 ∧
    (idleHandle 500 ⟨0, 500⟩
      (.item (Json.obj [("method", Json.str "Network.loadingFinished")]) 10)).quietDeadline =
      10 + 500 :=
  (inflight_counter_saturates 500 2000).2.2 ⟨0, 500⟩
    (Json.obj [("method", Json.str "Network.loadingFinished")]) 10 rfl (Or.inl rfl)

/-- C8: wait_ready_state returns success on the first poll whose
inspected value is a member of the accepted set, after exactly the
preceding non-matching polls, and fails with Timeout when every poll
completed before the deadline is non-matching. -/
theorem wait_ready_state_first_match (want : String) :
    (∀ pre r rest state,
      (∀ x ∈ pre, ∃ s, readyStateValue x = .ok s ∧ readyAccepts want s = false) →
      readyStateValue r = .ok state → readyAccepts want state = true →
      waitReadyState want (pre ++ r :: rest) = .success pre.length) ∧
    (∀ rs, (∀ x ∈ rs, ∃ s, readyStateValue x = .ok s ∧ readyAccepts want s = false) →
      waitReadyState want rs = .timeout) := by
  have htimeout : ∀ rs,
      (∀ x ∈ rs, ∃ s, readyStateValue x = .ok s ∧ readyAccepts want s = false) →
      waitReadyState want rs = .timeout := by
    intro rs
    induction rs with
    | nil => intro _; rfl
    | cons r rest ih =>
      intro h
      obtain ⟨s, hs, hacc⟩ := h r (List.mem_cons_self r rest)
      unfold waitReadyState
      rw [hs]
      simp only [hacc, Bool.false_eq_true, if_false]
      rw [ih (fun x hx => h x (List.mem_cons_of_mem r hx))]
  refine ⟨?_, htimeout⟩
  intro pre
  induction pre with
  | nil =>
    intro r rest state _ hr hacc
    rw [List.nil_append]
    unfold waitReadyState
    rw [hr]
    simp [hacc]
  | cons x pre ih =>
    intro r rest state hpre hr hacc
    obtain ⟨s, hs, hsacc⟩ := hpre x (List.mem_cons_self x pre)
    rw [List.cons_append]
    unfold waitReadyState
    rw [hs]
    simp only [hsacc, Bool.false_eq_true, if_false]
    rw [ih r rest state (fun y hy => hpre y (List.mem_cons_of_mem x hy)) hr hacc]
    simp

/-- Witness for C8: with want load, a loading poll followed by a complete
poll succeeds on the second poll, and a single loading poll before the
deadline times out. -/
theorem wait_ready_state_first_match_witness :
    waitReadyState "load"
      [Json.obj [("result", Json.obj [("value", Json.str "loading")])],
       Json.obj [("result", Json.obj [("value", Json.str "complete")])]] = .success 1 ∧
    waitReadyState "load"
      [Json.obj [("result", Json.obj [("value", Json.str "loading")])]] = .timeout := by
  constructor
  · exact (wait_ready_state_first_match "load").1
      [Json.obj [("result", Json.obj [("value", Json.str "loading")])]]
      (Json.obj [("result", Json.obj [("value", Json.str "complete")])]) [] (Json.str "complete")
      (by
        intro x hx
        rw [List.mem_singleton.mp hx]
        exact ⟨Json.str "loading", rfl, rfl⟩)
      rfl rfl
  · exact (wait_ready_state_first_match "load").2
      [Json.obj [("result", Json.obj [("value", Json.str "loading")])]]
      (by
        intro x hx
        rw [List.mem_singleton.mp hx]
        exact ⟨Json.str "loading", rfl, rfl⟩)

/-- A pending map with distinct keys stores at most one future per id. -/
theorem lookupPending_unique {p : List (Int × Bool)} {i : Int} {b b' : Bool}
    (hnd : (p.map Prod.fst).Nodup) (hl : lookupPending p i = some b)
    (hm : (i, b') ∈ p) : b' = b := by
  have := mem_lookupPending hnd hm
  rw [hl] at this
  exact (Option.some.injEq _ _).mp this.symm

/-- Core correlation lemma: running the reader over response frames with
pairwise distinct truthy ids, starting from a pending map with distinct
keys, logs exactly the resolutions pairing a not-done pending id with the
frame bearing that id, on top of the resolutions already logged. -/
theorem runReader_resolved_mem (frames : List Json) :
    ∀ st : ClientState,
    (∀ d ∈ frames, d.isObj = true) →
    (∀ d ∈ frames, (frameId d).isSome = true) →
    (frames.filterMap frameId).Nodup →
    (st.pending.map Prod.fst).Nodup →
    ∀ i d, (i, FutVal.result d) ∈ (runReader st (frames.map WsMsg.text) .closed).resolved ↔
      ((i, FutVal.result d) ∈ st.resolved ∨
        ((i, false) ∈ st.pending ∧ d ∈ frames ∧ frameId d = some i)) := by
  induction frames with
  | nil =>
    intro st _ _ _ _ i d
    simp [runReader]
  | cons d0 rest ih =>
    intro st hobj hresp hdist hpnd i d
    obtain ⟨i0, hi0⟩ := Option.isSome_iff_exists.mp (hresp d0 (List.mem_cons_self d0 rest))
    have hobj0 : d0.isObj = true := hobj d0 (List.mem_cons_self d0 rest)
    have hobjr : ∀ x ∈ rest, x.isObj = true :=
      fun x hx => hobj x (List.mem_cons_of_mem d0 hx)
    have hrespr : ∀ x ∈ rest, (frameId x).isSome = true :=
      fun x hx => hresp x (List.mem_cons_of_mem d0 hx)
    rw [List.filterMap_cons_some hi0, List.nodup_cons] at hdist
    have hne : ∀ x ∈ rest, ∀ j, frameId x = some j → j ≠ i0 := by
      intro x hx j hj hcontra
      exact hdist.1 (hcontra ▸ List.mem_filterMap.mpr ⟨x, hx, hj⟩)
    have hpf := processFrame_response st d0 i0 hobj0 hi0
    cases hl : lookupPending st.pending i0 with
    | none =>
      rw [hl] at hpf
      have hrun : runReader st ((d0 :: rest).map WsMsg.text) .closed =
          runReader st (rest.map WsMsg.text) .closed := by
        simp only [List.map_cons, runReader, hpf]
      rw [hrun, ih st hobjr hrespr hdist.2 hpnd]
      constructor
      · rintro (h | ⟨hp, hd, hf⟩)
        · exact Or.inl h
        · exact Or.inr ⟨hp, List.mem_cons_of_mem d0 hd, hf⟩
      · rintro (h | ⟨hp, hd, hf⟩)
        · exact Or.inl h
        · rcases List.mem_cons.mp hd with rfl | hd
          · rw [hi0] at hf
            have : i = i0 := by
              cases hf
              rfl
            rw [this] at hp
            rw [mem_lookupPending hpnd hp] at hl
            cases hl
          · exact Or.inr ⟨hp, hd, hf⟩
    | some b =>
      cases b with
      | false =>
        rw [hl] at hpf
        have hrun : runReader st ((d0 :: rest).map WsMsg.text) .closed =
            runReader ⟨st.nextId, removePending st.pending i0, st.subs,
              st.resolved ++ [(i0, FutVal.result d0)]⟩ (rest.map WsMsg.text) .closed := by
          simp only [List.map_cons, runReader, hpf]
        rw [hrun, ih _ hobjr hrespr hdist.2 (nodup_removePending hpnd)]
        simp only [List.mem_append, List.mem_singleton, Prod.mk.injEq,
          FutVal.result.injEq, mem_removePending]
        constructor
        · rintro ((h | ⟨hii, hdd⟩) | ⟨⟨hp, _⟩, hd, hf⟩)
          · exact Or.inl h
          · subst hii
            subst hdd
            exact Or.inr ⟨lookupPending_mem hl, List.mem_cons_self _ _, hi0⟩
          · exact Or.inr ⟨hp, List.mem_cons_of_mem d0 hd, hf⟩
        · rintro (h | ⟨hp, hd, hf⟩)
          · exact Or.inl (Or.inl h)
          · rcases List.mem_cons.mp hd with rfl | hd
            · rw [hi0] at hf
              have hii : i = i0 := by
                cases hf
                rfl
              exact Or.inl (Or.inr ⟨hii, rfl⟩)
            · have hine : i ≠ i0 := hne d hd i hf
              exact Or.inr ⟨⟨hp, hine⟩, hd, hf⟩
      | true =>
        rw [hl] at hpf
        have hrun : runReader st ((d0 :: rest).map WsMsg.text) .closed =
            runReader ⟨st.nextId, removePending st.pending i0, st.subs, st.resolved⟩
              (rest.map WsMsg.text) .closed := by
          simp only [List.map_cons, runReader, hpf]
        rw [hrun, ih _ hobjr hrespr hdist.2 (nodup_removePending hpnd)]
        simp only [mem_removePending]
        constructor
        · rintro (h | ⟨⟨hp, _⟩, hd, hf⟩)
          · exact Or.inl h
          · exact Or.inr ⟨hp, List.mem_cons_of_mem d0 hd, hf⟩
        · rintro (h | ⟨hp, hd, hf⟩)
          · exact Or.inl h
          · rcases List.mem_cons.mp hd with rfl | hd
            · rw [hi0] at hf
              have hii : i = i0 := by
                cases hf
                rfl
              rw [hii] at hp
              cases lookupPending_unique hpnd hl hp
            · have hine : i ≠ i0 := hne d hd i hf
              exact Or.inr ⟨⟨hp, hine⟩, hd, hf⟩

/-- C1: for any set of outstanding requests with distinct RequestIds and
any batch of response frames with distinct truthy ids, the reader loop
resolves each caller with exactly the frame bearing that caller's own
RequestId — a resolution (i, d) is logged precisely when id i is
outstanding and d is the frame carrying id i — and the resolutions are
the same for every arrival order of the response frames. -/
theorem send_correlated_by_id (st : ClientState) (frames frames2 : List Json)
    (hobj : ∀ d ∈ frames, d.isObj = true)
    (hresp : ∀ d ∈ frames, (frameId d).isSome = true)
    (hdist : (frames.filterMap frameId).Nodup)
    (hpnd : (st.pending.map Prod.fst).Nodup)
    (hres0 : st.resolved = [])
    (hperm : frames.Perm frames2) :
    (∀ i d,
      (i, FutVal.result d) ∈ (runReader st (frames.map WsMsg.text) .closed).resolved ↔
        ((i, false) ∈ st.pending ∧ d ∈ frames ∧ frameId d = some i)) ∧
    (∀ i d,
      (i, FutVal.result d) ∈ (runReader st (frames2.map WsMsg.text) .closed).resolved ↔
        (i, FutVal.result d) ∈ (runReader st (frames.map WsMsg.text) .closed).resolved) := by
  have h1 := runReader_resolved_mem frames st hobj hresp hdist hpnd
  have hobj2 : ∀ d ∈ frames2, d.isObj = true :=
    fun d hd => hobj d (hperm.mem_iff.mpr hd)
  have hresp2 : ∀ d ∈ frames2, (frameId d).isSome = true :=
    fun d hd => hresp d (hperm.mem_iff.mpr hd)
  have hdist2 : (frames2.filterMap frameId).Nodup :=
    (hperm.filterMap frameId).nodup hdist
  have h2 := runReader_resolved_mem frames2 st hobj2 hresp2 hdist2 hpnd
  constructor
  · intro i d
    rw [h1 i d, hres0]
    simp
  · intro i d
    rw [h1 i d, h2 i d, hres0]
    simp [hperm.mem_iff]

/-- Witness for C1: requests 1 and 2 outstanding, responses arriving in
reverse order; caller 1 receives the frame with id 1 and caller 2 the
frame with id 2. -/
theorem send_correlated_by_id_witness :
    (1, FutVal.result (Json.obj [("id", Json.num 1), ("result", Json.obj [("v", Json.num 10)])])) ∈
      (runReader ⟨2, [(1, false), (2, false)], [], []⟩
        ([Json.obj [("id", Json.num 2), ("result", Json.obj [("v", Json.num 20)])],
          Json.obj [("id", Json.num 1), ("result", Json.obj [("v", Json.num 10)])]].map
          WsMsg.text) .closed).resolved := by
  have h := send_correlated_by_id ⟨2, [(1, false), (2, false)], [], []⟩
    [Json.obj [("id", Json.num 2), ("result", Json.obj [("v", Json.num 20)])],
     Json.obj [("id", Json.num 1), ("result", Json.obj [("v", Json.num 10)])]]
    [Json.obj [("id", Json.num 1), ("result", Json.obj [("v", Json.num 10)])],
     Json.obj [("id", Json.num 2), ("result", Json.obj [("v", Json.num 20)])]]
    (by intro x hx; rcases List.mem_cons.mp hx with rfl | hx; · rfl
        rcases List.mem_cons.mp hx with rfl | hx; · rfl
        cases hx)
    (by intro x hx; rcases List.mem_cons.mp hx with rfl | hx; · rfl
        rcases List.mem_cons.mp hx with rfl | hx; · rfl
        cases hx)
    (by
      have he : ([Json.obj [("id", Json.num 2), ("result", Json.obj [("v", Json.num 20)])],
          Json.obj [("id", Json.num 1),
            ("result", Json.obj [("v", Json.num 10)])]].filterMap frameId) = [2, 1] := rfl
      rw [he]
      decide)
    (by decide)
    rfl
    (List.Perm.swap _ _ _)
  exact (h.1 1 _).mpr
    ⟨List.mem_cons_self _ _,
     List.mem_cons_of_mem _ (List.mem_cons_self _ _), rfl⟩

end Cdpctl
